import Mathlib

/-!
Verification of the counterfeit-detection engine of the brand discovery
repository.  The definitions below are shallow embeddings of the Python
source: `counterfeit_detector.py` (string similarity, brand resolution,
risk scoring, sequential batch analysis) and the `counterfeit_detector`
package (`detector.py`, `batch_processor.py`, `graph_client.py`,
`multi_modal.py`: the multimodal detector and the optimized batch
pipeline).  External collaborators (the inference service and the graph
store) are modelled as function parameters; machine floats are modelled
as rationals.
-/

/-- One cell-level step of the dynamic-programming edit distance of
`_calculate_similarity` (counterfeit_detector.py lines 407-442).  The
Python code fills a `(len1+1) x (len2+1)` matrix whose entry `(i, j)` is
the unit-cost insert/delete/substitute distance between the length-`i`
prefix of `str1` and the length-`j` prefix of `str2`; each entry obeys
the classic recurrence (equal last characters: diagonal; otherwise one
plus the minimum of deletion `matrix[i-1][j]`, insertion
`matrix[i][j-1]`, substitution `matrix[i-1][j-1]`).  We embed that
recurrence directly, with a fuel argument making the recursion
structural so that the function evaluates inside the kernel; fuel
`len1 + len2` always suffices because every recursive call shortens the
combined length. -/
def edFuel : Nat → List Char → List Char → Nat
  | _, [], ys => ys.length
  | _, x :: xs, [] => (x :: xs).length
  | 0, _ :: _, _ :: _ => 0
  | fuel + 1, x :: xs, y :: ys =>
    if x = y then edFuel fuel xs ys
    else 1 + min (edFuel fuel xs (y :: ys)) (min (edFuel fuel (x :: xs) ys) (edFuel fuel xs ys))

/-- The edit distance computed by the matrix fill of
`_calculate_similarity`: `matrix[len(str1)][len(str2)]`. -/
def editDistance (s1 s2 : List Char) : Nat :=
  edFuel (s1.length + s2.length) s1 s2

theorem edFuel_nil_left (f : Nat) (ys : List Char) : edFuel f [] ys = ys.length := by
  cases f <;> rfl

theorem edFuel_nil_right (f : Nat) (xs : List Char) : edFuel f xs [] = xs.length := by
  cases f <;> cases xs <;> rfl

theorem edFuel_congr :
    ∀ f g : Nat, ∀ s1 s2 : List Char,
      s1.length + s2.length ≤ f → s1.length + s2.length ≤ g →
      edFuel f s1 s2 = edFuel g s1 s2 := by
  intro f
  induction f with
  | zero =>
    intro g s1 s2 hf _
    cases s1 with
    | nil => simp [edFuel_nil_left]
    | cons x xs => simp at hf
  | succ f ih =>
    intro g s1 s2 hf hg
    cases s1 with
    | nil => simp [edFuel_nil_left]
    | cons x xs =>
      cases s2 with
      | nil => simp [edFuel_nil_right]
      | cons y ys =>
        cases g with
        | zero => simp at hg
        | succ g =>
          simp only [List.length_cons] at hf hg
          show edFuel (f + 1) (x :: xs) (y :: ys) = edFuel (g + 1) (x :: xs) (y :: ys)
          simp only [edFuel]
          by_cases hxy : x = y
          · simp only [hxy, if_pos rfl]
            exact ih g xs ys (by omega) (by omega)
          · simp only [if_neg hxy]
            rw [ih g xs (y :: ys) (by simp; omega) (by simp; omega),
              ih g (x :: xs) ys (by simp; omega) (by simp; omega),
              ih g xs ys (by omega) (by omega)]

theorem editDistance_nil_left (ys : List Char) : editDistance [] ys = ys.length := by
  simp [editDistance, edFuel_nil_left]

theorem editDistance_nil_right (xs : List Char) : editDistance xs [] = xs.length := by
  simp [editDistance, edFuel_nil_right]

/-- `editDistance` satisfies the classic edit-distance recurrence at a
cons/cons pair: equal heads cost nothing, otherwise one plus the minimum
over deletion, insertion and substitution. -/
theorem editDistance_cons_cons (x y : Char) (xs ys : List Char) :
    editDistance (x :: xs) (y :: ys) =
      if x = y then editDistance xs ys
      else 1 + min (editDistance xs (y :: ys))
        (min (editDistance (x :: xs) ys) (editDistance xs ys)) := by
  show edFuel ((x :: xs).length + (y :: ys).length) (x :: xs) (y :: ys) = _
  have h : (x :: xs).length + (y :: ys).length = (xs.length + ys.length) + 1 + 1 := by
    simp; omega
  rw [h]
  simp only [edFuel, editDistance]
  by_cases hxy : x = y
  · rw [if_pos hxy, if_pos hxy]
    exact edFuel_congr _ _ xs ys (by omega) (le_refl _)
  · rw [if_neg hxy, if_neg hxy,
      edFuel_congr _ (xs.length + (y :: ys).length) xs (y :: ys) (by simp; omega) (le_refl _),
      edFuel_congr _ ((x :: xs).length + ys.length) (x :: xs) ys (by simp; omega) (le_refl _),
      edFuel_congr _ (xs.length + ys.length) xs ys (by omega) (le_refl _)]

theorem edFuel_comm :
    ∀ f : Nat, ∀ s1 s2 : List Char,
      s1.length + s2.length ≤ f → edFuel f s1 s2 = edFuel f s2 s1 := by
  intro f
  induction f with
  | zero =>
    intro s1 s2 hf
    cases s1 with
    | nil => simp [edFuel_nil_left, edFuel_nil_right]
    | cons x xs => simp at hf
  | succ f ih =>
    intro s1 s2 hf
    cases s1 with
    | nil => simp [edFuel_nil_left, edFuel_nil_right]
    | cons x xs =>
      cases s2 with
      | nil => simp [edFuel_nil_left, edFuel_nil_right]
      | cons y ys =>
        simp only [List.length_cons] at hf
        show edFuel (f + 1) (x :: xs) (y :: ys) = edFuel (f + 1) (y :: ys) (x :: xs)
        simp only [edFuel]
        by_cases hxy : x = y
        · rw [if_pos hxy, if_pos hxy.symm]
          exact ih xs ys (by omega)
        · have hyx : ¬ y = x := fun h => hxy h.symm
          rw [if_neg hxy, if_neg hyx,
            ih xs (y :: ys) (by simp; omega), ih (x :: xs) ys (by simp; omega),
            ih xs ys (by omega)]
          omega

theorem editDistance_comm (s1 s2 : List Char) : editDistance s1 s2 = editDistance s2 s1 := by
  unfold editDistance
  rw [edFuel_comm (s1.length + s2.length) s1 s2 (le_refl _)]
  exact edFuel_congr _ _ s2 s1 (by omega) (le_refl _)

theorem editDistance_self (s : List Char) : editDistance s s = 0 := by
  induction s with
  | nil => simp [editDistance_nil_left]
  | cons x xs ih => rw [editDistance_cons_cons]; simp [ih]

theorem edFuel_le_max :
    ∀ f : Nat, ∀ s1 s2 : List Char,
      s1.length + s2.length ≤ f → edFuel f s1 s2 ≤ max s1.length s2.length := by
  intro f
  induction f with
  | zero =>
    intro s1 s2 hf
    cases s1 with
    | nil => simp [edFuel_nil_left]
    | cons x xs => simp at hf
  | succ f ih =>
    intro s1 s2 hf
    cases s1 with
    | nil => simp [edFuel_nil_left]
    | cons x xs =>
      cases s2 with
      | nil => simp [edFuel_nil_right]
      | cons y ys =>
        simp only [List.length_cons] at hf
        show edFuel (f + 1) (x :: xs) (y :: ys) ≤ _
        simp only [edFuel]
        by_cases hxy : x = y
        · rw [if_pos hxy]
          have := ih xs ys (by omega)
          simp only [List.length_cons]
          omega
        · rw [if_neg hxy]
          have := ih xs ys (by omega)
          simp only [List.length_cons]
          omega

theorem editDistance_le_max (s1 s2 : List Char) :
    editDistance s1 s2 ≤ max s1.length s2.length :=
  edFuel_le_max _ s1 s2 (le_refl _)

/-- Shallow embedding of `_calculate_similarity`
(counterfeit_detector.py lines 407-442): zero when either string is
empty, otherwise `1 - actual_distance / max_distance` where
`max_distance` is the length of the longer string. -/
def calculateSimilarity (str1 str2 : String) : ℚ :=
  if str1.length = 0 then 0
  else if str2.length = 0 then 0
  else
    1 - ((editDistance str1.data str2.data : ℚ) / ((max str1.length str2.length : Nat) : ℚ))

theorem calculateSimilarity_nonneg (a b : String) : 0 ≤ calculateSimilarity a b := by
  unfold calculateSimilarity
  split
  · exact le_refl 0
  · split
    · exact le_refl 0
    · rename_i h1 h2
      have hmax : 0 < max a.length b.length := by omega
      have hd : editDistance a.data b.data ≤ max a.length b.length := by
        have h := editDistance_le_max a.data b.data
        have ha : a.length = a.data.length := rfl
        have hb : b.length = b.data.length := rfl
        rw [ha, hb]
        exact h
      have hcast : ((editDistance a.data b.data : ℚ)) ≤ ((max a.length b.length : Nat) : ℚ) := by
        exact_mod_cast hd
      have hmaxq : (0 : ℚ) < ((max a.length b.length : Nat) : ℚ) := by exact_mod_cast hmax
      have : (editDistance a.data b.data : ℚ) / ((max a.length b.length : Nat) : ℚ) ≤ 1 :=
        (div_le_one hmaxq).mpr hcast
      linarith

theorem calculateSimilarity_le_one (a b : String) : calculateSimilarity a b ≤ 1 := by
  unfold calculateSimilarity
  split
  · exact zero_le_one
  · split
    · exact zero_le_one
    · rename_i h1 h2
      have hmax : 0 < max a.length b.length := by omega
      have hmaxq : (0 : ℚ) < ((max a.length b.length : Nat) : ℚ) := by exact_mod_cast hmax
      have hdq : (0 : ℚ) ≤ (editDistance a.data b.data : ℚ) := by positivity
      have : (0 : ℚ) ≤ (editDistance a.data b.data : ℚ) / ((max a.length b.length : Nat) : ℚ) :=
        div_nonneg hdq (le_of_lt hmaxq)
      linarith

theorem calculateSimilarity_comm (a b : String) :
    calculateSimilarity a b = calculateSimilarity b a := by
  unfold calculateSimilarity
  rw [editDistance_comm, Nat.max_comm]
  rcases Nat.eq_zero_or_pos a.length with ha | ha <;>
    rcases Nat.eq_zero_or_pos b.length with hb | hb
  · simp [ha, hb]
  · simp [ha, hb]
  · simp [hb, Nat.pos_iff_ne_zero.mp ha]
  · simp [Nat.pos_iff_ne_zero.mp ha, Nat.pos_iff_ne_zero.mp hb]

theorem calculateSimilarity_self (s : String) (hs : s.length ≠ 0) :
    calculateSimilarity s s = 1 := by
  unfold calculateSimilarity
  rw [if_neg hs, if_neg hs, editDistance_self]
  simp

theorem calculateSimilarity_empty_left (b : String) : calculateSimilarity "" b = 0 := by
  unfold calculateSimilarity
  simp

theorem calculateSimilarity_empty_right (a : String) : calculateSimilarity a "" = 0 := by
  unfold calculateSimilarity
  simp

theorem calculateSimilarity_eq_formula (a b : String)
    (ha : a.length ≠ 0) (hb : b.length ≠ 0) :
    calculateSimilarity a b =
      1 - ((editDistance a.data b.data : ℚ) / ((max a.length b.length : Nat) : ℚ)) := by
  unfold calculateSimilarity
  rw [if_neg ha, if_neg hb]

/-- An indicator record as produced by `_check_counterfeit_indicators`
(counterfeit_detector.py): a typed piece of counterfeit evidence with
its own confidence. -/
structure Indicator where
  indicator_type : String
  confidence : ℚ
deriving DecidableEq

/-- The per-type weight table of `_calculate_counterfeit_confidence`
(counterfeit_detector.py lines 384-395): `weights.get(indicator_type, 0.5)`. -/
def indicatorWeight (t : String) : ℚ :=
  if t = "name_variation" then 1
  else if t = "attribute_mismatch" then 8/10
  else if t = "description_red_flag" then 6/10
  else if t = "price_indicator" then 7/10
  else if t = "known_pattern" then 1
  else 1/2

/-- The running totals loop of `_calculate_counterfeit_confidence`
(lines 392-398): pairs `(weighted_score, total_weight)` accumulated over
the indicator list. -/
def indicatorTotals (indicators : List Indicator) : ℚ × ℚ :=
  indicators.foldl
    (fun acc ind =>
      (acc.1 + ind.confidence * indicatorWeight ind.indicator_type,
       acc.2 + indicatorWeight ind.indicator_type))
    (0, 0)

/-- `indicator_score` of `_calculate_counterfeit_confidence` (line 401):
`weighted_score / total_weight if total_weight > 0 else 0`. -/
def indicatorScore (indicators : List Indicator) : ℚ :=
  if 0 < (indicatorTotals indicators).2 then
    (indicatorTotals indicators).1 / (indicatorTotals indicators).2
  else 0

/-- Shallow embedding of `_calculate_counterfeit_confidence`
(counterfeit_detector.py lines 370-405): `0.0` for an empty indicator
list, otherwise `min(1.0, indicator_score * (0.5 + 0.5 * brand_confidence))`. -/
def calculateCounterfeitConfidence (brand_confidence : ℚ) (indicators : List Indicator) : ℚ :=
  if indicators = [] then 0
  else min 1 (indicatorScore indicators * (1/2 + 1/2 * brand_confidence))

/-- Modelled from the spec: the combining formula
`finalConfidence(brandDetectionConfidence, indicatorScore) =
min(1, indicatorScore * (0.5 + 0.5 * brandDetectionConfidence))` as the
specification states it, to be compared with
`calculateCounterfeitConfidence` from the source. -/
def specFinalConfidence (brandDetectionConfidence indScore : ℚ) : ℚ :=
  min 1 (indScore * (1/2 + 1/2 * brandDetectionConfidence))

/-- The risk tiers of the verdicts. -/
inductive RiskLevel where
  | NONE
  | LOW
  | MEDIUM
  | HIGH
deriving DecidableEq

/-- Shallow embedding of `_get_risk_level` (counterfeit_detector.py
lines 444-453). -/
def getRiskLevel (score : ℚ) : RiskLevel :=
  if 8/10 ≤ score then .HIGH
  else if 5/10 ≤ score then .MEDIUM
  else if 0 < score then .LOW
  else .NONE

/-- The summed form of the totals accumulator: `indicatorTotals` is the
pair of the weighted confidence sum and the weight sum. -/
theorem indicatorTotals_eq_sums (indicators : List Indicator) :
    indicatorTotals indicators =
      ((indicators.map (fun i => i.confidence * indicatorWeight i.indicator_type)).sum,
       (indicators.map (fun i => indicatorWeight i.indicator_type)).sum) := by
  have key : ∀ (l : List Indicator) (a b : ℚ),
      l.foldl
        (fun acc ind =>
          (acc.1 + ind.confidence * indicatorWeight ind.indicator_type,
           acc.2 + indicatorWeight ind.indicator_type)) (a, b) =
        (a + (l.map (fun i => i.confidence * indicatorWeight i.indicator_type)).sum,
         b + (l.map (fun i => indicatorWeight i.indicator_type)).sum) := by
    intro l
    induction l with
    | nil => intro a b; simp
    | cons x xs ih =>
      intro a b
      simp only [List.foldl_cons, List.map_cons, List.sum_cons, ih]
      rw [Prod.mk.injEq]
      constructor <;> ring
  unfold indicatorTotals
  rw [key]
  simp

theorem indicatorWeight_ge_half (t : String) : 1/2 ≤ indicatorWeight t := by
  unfold indicatorWeight
  split
  · norm_num
  · split
    · norm_num
    · split
      · norm_num
      · split
        · norm_num
        · split <;> norm_num

theorem indicatorWeight_le_one (t : String) : indicatorWeight t ≤ 1 := by
  unfold indicatorWeight
  split
  · norm_num
  · split
    · norm_num
    · split
      · norm_num
      · split
        · norm_num
        · split <;> norm_num

/-- The weight sum of a non-empty indicator list is strictly positive
(every weight is at least 1/2). -/
theorem weightSum_pos (indicators : List Indicator) (h : indicators ≠ []) :
    0 < (indicators.map (fun i => indicatorWeight i.indicator_type)).sum := by
  cases indicators with
  | nil => exact absurd rfl h
  | cons x xs =>
    simp only [List.map_cons, List.sum_cons]
    have h1 : 1/2 ≤ indicatorWeight x.indicator_type := indicatorWeight_ge_half _
    have h2 : 0 ≤ (xs.map (fun i => indicatorWeight i.indicator_type)).sum := by
      apply List.sum_nonneg
      intro q hq
      simp only [List.mem_map] at hq
      obtain ⟨i, _, hi⟩ := hq
      have := indicatorWeight_ge_half i.indicator_type
      linarith [hi ▸ this]
    linarith

theorem indicatorScore_nil : indicatorScore [] = 0 := by
  unfold indicatorScore indicatorTotals
  simp

/-- For a non-empty list the indicator score is the weighted mean of the
confidences. -/
theorem indicatorScore_eq_weighted_mean (indicators : List Indicator) (h : indicators ≠ []) :
    indicatorScore indicators =
      (indicators.map (fun i => i.confidence * indicatorWeight i.indicator_type)).sum /
        (indicators.map (fun i => indicatorWeight i.indicator_type)).sum := by
  unfold indicatorScore
  rw [indicatorTotals_eq_sums]
  exact if_pos (weightSum_pos indicators h)

theorem indicatorScore_nonneg (indicators : List Indicator)
    (h : ∀ i ∈ indicators, 0 ≤ i.confidence) : 0 ≤ indicatorScore indicators := by
  unfold indicatorScore
  rw [indicatorTotals_eq_sums]
  split
  · rename_i hpos
    apply div_nonneg _ (le_of_lt hpos)
    apply List.sum_nonneg
    intro q hq
    simp only [List.mem_map] at hq
    obtain ⟨i, hmem, hi⟩ := hq
    have hc := h i hmem
    have hw := indicatorWeight_ge_half i.indicator_type
    rw [← hi]
    exact mul_nonneg hc (by linarith)
  · exact le_refl 0

theorem indicatorScore_le_one (indicators : List Indicator)
    (h : ∀ i ∈ indicators, i.confidence ≤ 1) : indicatorScore indicators ≤ 1 := by
  unfold indicatorScore
  rw [indicatorTotals_eq_sums]
  split
  · rename_i hpos
    rw [div_le_one hpos]
    apply List.sum_le_sum
    intro i hmem
    have hc := h i hmem
    have hw := indicatorWeight_ge_half i.indicator_type
    nlinarith
  · exact zero_le_one

/-- Raising one indicator's confidence (same type, all other indicators
fixed) cannot lower the indicator score. -/
theorem indicatorScore_mono (pre post : List Indicator) (i j : Indicator)
    (htype : j.indicator_type = i.indicator_type)
    (hconf : i.confidence ≤ j.confidence) :
    indicatorScore (pre ++ i :: post) ≤ indicatorScore (pre ++ j :: post) := by
  have hne : pre ++ i :: post ≠ [] := by simp
  have hne2 : pre ++ j :: post ≠ [] := by simp
  rw [indicatorScore_eq_weighted_mean _ hne, indicatorScore_eq_weighted_mean _ hne2]
  have hwsum :
      ((pre ++ j :: post).map (fun k => indicatorWeight k.indicator_type)).sum =
        ((pre ++ i :: post).map (fun k => indicatorWeight k.indicator_type)).sum := by
    simp [htype]
  rw [hwsum]
  have hpos := weightSum_pos (pre ++ i :: post) hne
  rw [div_le_div_iff_of_pos_right hpos]
  simp only [List.map_append, List.sum_append, List.map_cons, List.sum_cons, htype]
  have hw := indicatorWeight_ge_half i.indicator_type
  nlinarith

theorem calculateCounterfeitConfidence_nil (b : ℚ) :
    calculateCounterfeitConfidence b [] = 0 := by
  unfold calculateCounterfeitConfidence
  simp

/-- The source combiner agrees with the spec formula applied to the
indicator score, for every indicator list (including the empty one). -/
theorem calculateCounterfeitConfidence_eq_spec (b : ℚ) (indicators : List Indicator) :
    calculateCounterfeitConfidence b indicators =
      specFinalConfidence b (indicatorScore indicators) := by
  unfold calculateCounterfeitConfidence specFinalConfidence
  split
  · rename_i hnil
    subst hnil
    rw [indicatorScore_nil]
    simp
  · rfl

theorem calculateCounterfeitConfidence_nonneg (b : ℚ) (indicators : List Indicator)
    (hb : 0 ≤ b) (h : ∀ i ∈ indicators, 0 ≤ i.confidence) :
    0 ≤ calculateCounterfeitConfidence b indicators := by
  unfold calculateCounterfeitConfidence
  split
  · exact le_refl 0
  · apply le_min_iff.mpr
    refine ⟨zero_le_one, ?_⟩
    have hs := indicatorScore_nonneg indicators h
    have hfac : (0 : ℚ) ≤ 1/2 + 1/2 * b := by linarith
    exact mul_nonneg hs hfac

theorem calculateCounterfeitConfidence_le_one (b : ℚ) (indicators : List Indicator) :
    calculateCounterfeitConfidence b indicators ≤ 1 := by
  unfold calculateCounterfeitConfidence
  split
  · exact zero_le_one
  · exact min_le_left _ _

/-- `getRiskLevel` buckets: full characterization of the threshold
comparisons of `_get_risk_level`. -/
theorem getRiskLevel_high (s : ℚ) (h : 8/10 ≤ s) : getRiskLevel s = .HIGH := by
  unfold getRiskLevel
  rw [if_pos h]

theorem getRiskLevel_medium (s : ℚ) (h1 : 5/10 ≤ s) (h2 : s < 8/10) :
    getRiskLevel s = .MEDIUM := by
  unfold getRiskLevel
  rw [if_neg (by linarith), if_pos h1]

theorem getRiskLevel_low (s : ℚ) (h1 : 0 < s) (h2 : s < 5/10) : getRiskLevel s = .LOW := by
  unfold getRiskLevel
  rw [if_neg (by linarith), if_neg (by linarith), if_pos h1]

theorem getRiskLevel_none (s : ℚ) (h : s ≤ 0) : getRiskLevel s = .NONE := by
  unfold getRiskLevel
  rw [if_neg (by linarith), if_neg (by linarith), if_neg (by linarith)]

theorem indicatorWeight_name_variation : indicatorWeight "name_variation" = 1 := rfl

theorem indicatorWeight_attribute_mismatch : indicatorWeight "attribute_mismatch" = 8/10 := rfl

theorem indicatorWeight_description_red_flag :
    indicatorWeight "description_red_flag" = 6/10 := rfl

theorem indicatorWeight_price_indicator : indicatorWeight "price_indicator" = 7/10 := rfl

theorem indicatorWeight_known_pattern : indicatorWeight "known_pattern" = 1 := rfl

/-- The two indicators of the "Nikey AirMax Elite" end-to-end scenario:
one `name_variation` at confidence 0.9 and one `price_indicator` at
confidence 0.7. -/
def nikeyIndicators : List Indicator :=
  [⟨"name_variation", 9/10⟩, ⟨"price_indicator", 7/10⟩]

theorem nikeyIndicatorScore : indicatorScore nikeyIndicators = 139/170 := by
  rw [indicatorScore_eq_weighted_mean _ (by simp [nikeyIndicators])]
  unfold nikeyIndicators
  simp only [List.map_cons, List.map_nil, List.sum_cons, List.sum_nil,
    indicatorWeight_name_variation, indicatorWeight_price_indicator]
  norm_num

theorem nikeyFinalConfidence :
    calculateCounterfeitConfidence (8/10) nikeyIndicators = 1251/1700 := by
  rw [calculateCounterfeitConfidence_eq_spec, nikeyIndicatorScore]
  unfold specFinalConfidence
  norm_num

/-- Embedding of Python `str.lower()` as used by `_query_fuzzy_brand`:
character-wise lowercasing.  (Lean's `Char.toLower` lowers the ASCII
range, which covers the brand names the system stores.) -/
def strToLower (s : String) : String :=
  ⟨s.data.map Char.toLower⟩

/-- A brand node of the knowledge graph together with its attribute
rows and its known counterfeit variation names, as returned by the
Cypher queries of counterfeit_detector.py. -/
structure BrandRec where
  name : String
  attributes : List (String × List String)
  variations : List String
deriving DecidableEq

/-- The graph store: the list of brand nodes, in store order. -/
abbrev BrandStore : Type := List BrandRec

/-- The loosely-typed brand-context dictionary built by
`_get_brand_context` and its helpers.  Keys that a given code path
leaves out of the Python dict are modelled by their defaults
(`exists_in_graph=false`, `is_variation=false`, absent
`variation_type`/`similarity_score` as `none`). -/
structure BrandContext where
  brand : String
  exists_in_graph : Bool := false
  attributes : List (String × List String) := []
  legitimate_variations : List String := []
  counterfeit_variations : List String := []
  is_variation : Bool := false
  variation_type : Option String := none
  similarity_score : Option ℚ := none
deriving DecidableEq

/-- Embedding of `_query_exact_brand` (counterfeit_detector.py lines
192-225): an exact, case-sensitive name lookup returning the brand's
attributes and counterfeit variations; `None` when no node matches. -/
def queryExactBrand (store : BrandStore) (brand_name : String) : Option BrandContext :=
  (store.find? (fun b => b.name = brand_name)).map fun b =>
    { brand := b.name
      exists_in_graph := true
      attributes := b.attributes
      legitimate_variations := []
      counterfeit_variations := b.variations }

/-- The scored match list built by the filter loop of
`_query_fuzzy_brand` (lines 239-243): every stored brand whose
similarity to the lower-cased input is strictly above 0.7, in store
order, paired with its similarity. -/
def fuzzyMatches (store : BrandStore) (brand_name : String) : List (String × ℚ) :=
  store.filterMap fun b =>
    if 7/10 < calculateSimilarity (strToLower brand_name) (strToLower b.name) then
      some (b.name, calculateSimilarity (strToLower brand_name) (strToLower b.name))
    else none

/-- Stable insertion used to model Python's stable
`matches.sort(key=lambda x: x[1], reverse=True)`: a new element goes
after every earlier element with an equal-or-larger score. -/
def insertByScoreDesc (p : String × ℚ) : List (String × ℚ) → List (String × ℚ)
  | [] => [p]
  | q :: rest => if q.2 ≤ p.2 then p :: q :: rest else q :: insertByScoreDesc p rest

/-- Stable descending sort by score (Python `list.sort` with
`reverse=True` is stable: ties keep their original order). -/
def sortByScoreDesc (l : List (String × ℚ)) : List (String × ℚ) :=
  l.foldr insertByScoreDesc []

/-- Embedding of `_query_fuzzy_brand` (counterfeit_detector.py lines
227-256): filter all stored brands by similarity, sort descending by
score, keep the top 3, and annotate each with `similarity_score`. -/
def queryFuzzyBrand (store : BrandStore) (brand_name : String) : List BrandContext :=
  ((sortByScoreDesc (fuzzyMatches store brand_name)).take 3).filterMap fun m =>
    (queryExactBrand store m.1).map fun ctx => { ctx with similarity_score := some m.2 }

/-- One record of `_query_brand_variations` (lines 258-285): a brand
that lists the probed name among its counterfeit variations. -/
structure VariationRec where
  original_brand : String
  attributes : List (String × List String)
deriving DecidableEq

/-- Embedding of `_query_brand_variations`: all brands having the probed
name as a variation, in store order, with their attributes. -/
def queryBrandVariations (store : BrandStore) (potential_variation : String) :
    List VariationRec :=
  store.filterMap fun b =>
    if potential_variation ∈ b.variations then
      some ⟨b.name, b.attributes⟩
    else none

/-- Embedding of `_get_brand_context` (counterfeit_detector.py lines
153-190): exact match, then fuzzy match, then counterfeit-variation
match, then the unresolved record, short-circuiting in that order. -/
def getBrandContext (store : BrandStore) (brand_name : String) : BrandContext :=
  match queryExactBrand store brand_name with
  | some ctx => ctx
  | none =>
    match queryFuzzyBrand store brand_name with
    | fm :: _ => fm
    | [] =>
      match queryBrandVariations store brand_name with
      | v :: _ =>
        { brand := v.original_brand
          is_variation := true
          variation_type := some "counterfeit"
          attributes := v.attributes
          legitimate_variations := []
          counterfeit_variations := [brand_name] }
      | [] =>
        { brand := brand_name
          exists_in_graph := false
          attributes := []
          legitimate_variations := []
          counterfeit_variations := [] }

theorem insertByScoreDesc_perm (p : String × ℚ) (l : List (String × ℚ)) :
    (insertByScoreDesc p l).Perm (p :: l) := by
  induction l with
  | nil => rfl
  | cons q rest ih =>
    unfold insertByScoreDesc
    split
    · exact List.Perm.refl _
    · exact (ih.cons q).trans (List.Perm.swap p q rest)

theorem sortByScoreDesc_perm (l : List (String × ℚ)) : (sortByScoreDesc l).Perm l := by
  induction l with
  | nil => rfl
  | cons x xs ih =>
    show (insertByScoreDesc x (sortByScoreDesc xs)).Perm (x :: xs)
    exact (insertByScoreDesc_perm x (sortByScoreDesc xs)).trans (ih.cons x)

theorem insertByScoreDesc_sorted (p : String × ℚ) (l : List (String × ℚ))
    (h : l.Sorted (fun a b => b.2 ≤ a.2)) :
    (insertByScoreDesc p l).Sorted (fun a b => b.2 ≤ a.2) := by
  induction l with
  | nil => simp [insertByScoreDesc]
  | cons q rest ih =>
    rw [List.sorted_cons] at h
    obtain ⟨hq, hrest⟩ := h
    unfold insertByScoreDesc
    split
    · rename_i hle
      rw [List.sorted_cons]
      refine ⟨?_, ?_⟩
      · intro b hb
        rcases List.mem_cons.mp hb with hbq | hbr
        · rw [hbq]; exact hle
        · exact le_trans (hq b hbr) hle
      · rw [List.sorted_cons]
        exact ⟨hq, hrest⟩
    · rename_i hgt
      push_neg at hgt
      rw [List.sorted_cons]
      refine ⟨?_, ih hrest⟩
      intro b hb
      have hmem := (insertByScoreDesc_perm p rest).mem_iff.mp hb
      rcases List.mem_cons.mp hmem with hbp | hbr
      · rw [hbp]; exact le_of_lt hgt
      · exact hq b hbr

theorem sortByScoreDesc_sorted (l : List (String × ℚ)) :
    (sortByScoreDesc l).Sorted (fun a b => b.2 ≤ a.2) := by
  induction l with
  | nil => simp [sortByScoreDesc]
  | cons x xs ih => exact insertByScoreDesc_sorted x (sortByScoreDesc xs) ih

theorem insertByScoreDesc_filter_key (p : String × ℚ) (l : List (String × ℚ)) (k : ℚ) :
    (insertByScoreDesc p l).filter (fun q => q.2 = k) =
      if p.2 = k then p :: l.filter (fun q => q.2 = k)
      else l.filter (fun q => q.2 = k) := by
  induction l with
  | nil =>
    simp only [insertByScoreDesc, List.filter]
    split <;> simp_all
  | cons q rest ih =>
    unfold insertByScoreDesc
    split
    · rename_i hle
      by_cases hpk : p.2 = k
      · simp [List.filter, hpk]
      · simp [List.filter, hpk]
    · rename_i hgt
      push_neg at hgt
      by_cases hpk : p.2 = k
      · have hqk : ¬ q.2 = k := by
          intro h
          rw [← hpk] at h
          exact absurd hgt (not_lt.mpr h.le)
        simp [List.filter_cons, hqk, hpk, ih]
      · simp [List.filter_cons, ih, hpk]

/-- Stability of the descending sort: for each fixed score, the
elements carrying that score appear in the sorted list in exactly their
original order. -/
theorem sortByScoreDesc_stable (l : List (String × ℚ)) (k : ℚ) :
    (sortByScoreDesc l).filter (fun q => q.2 = k) = l.filter (fun q => q.2 = k) := by
  induction l with
  | nil => rfl
  | cons x xs ih =>
    show (insertByScoreDesc x (sortByScoreDesc xs)).filter (fun q => q.2 = k) = _
    rw [insertByScoreDesc_filter_key]
    by_cases hxk : x.2 = k
    · simp [List.filter_cons, hxk, ih]
    · simp [List.filter_cons, hxk, ih]

theorem fuzzyMatches_mem (store : BrandStore) (name : String) (m : String × ℚ)
    (hm : m ∈ fuzzyMatches store name) :
    7/10 < m.2 ∧ ∃ b ∈ store, b.name = m.1 ∧
      m.2 = calculateSimilarity (strToLower name) (strToLower b.name) := by
  unfold fuzzyMatches at hm
  rw [List.mem_filterMap] at hm
  obtain ⟨b, hb, hbm⟩ := hm
  by_cases hc : 7/10 < calculateSimilarity (strToLower name) (strToLower b.name)
  · rw [if_pos hc] at hbm
    cases hbm
    exact ⟨hc, b, hb, rfl, rfl⟩
  · rw [if_neg hc] at hbm
    cases hbm

theorem fuzzyMatches_of_store (store : BrandStore) (name : String) (b : BrandRec)
    (hb : b ∈ store)
    (hsim : 7/10 < calculateSimilarity (strToLower name) (strToLower b.name)) :
    (b.name, calculateSimilarity (strToLower name) (strToLower b.name)) ∈
      fuzzyMatches store name := by
  unfold fuzzyMatches
  rw [List.mem_filterMap]
  exact ⟨b, hb, by rw [if_pos hsim]⟩

theorem queryExactBrand_isSome_of_store (store : BrandStore) (b : BrandRec)
    (hb : b ∈ store) : (queryExactBrand store b.name).isSome := by
  unfold queryExactBrand
  have hfind : (store.find? (fun x => x.name = b.name)).isSome := by
    rw [List.find?_isSome]
    exact ⟨b, hb, by simp⟩
  obtain ⟨c, hc⟩ := Option.isSome_iff_exists.mp hfind
  rw [hc]
  rfl

theorem annotate_scores_map (store : BrandStore) (ms : List (String × ℚ))
    (h : ∀ m ∈ ms, (queryExactBrand store m.1).isSome) :
    (ms.filterMap fun m =>
        (queryExactBrand store m.1).map fun ctx =>
          { ctx with similarity_score := some m.2 }).map (fun c => c.similarity_score) =
      ms.map (fun m => some m.2) := by
  induction ms with
  | nil => rfl
  | cons m rest ih =>
    have hm := h m (List.mem_cons_self m rest)
    obtain ⟨ctx, hctx⟩ := Option.isSome_iff_exists.mp hm
    have hf : ((queryExactBrand store m.1).map fun c =>
        { c with similarity_score := some m.2 }) =
        some { ctx with similarity_score := some m.2 } := by
      rw [hctx]
      rfl
    have step : ((m :: rest).filterMap fun p =>
        (queryExactBrand store p.1).map fun c => { c with similarity_score := some p.2 }) =
        { ctx with similarity_score := some m.2 } ::
          (rest.filterMap fun p =>
            (queryExactBrand store p.1).map fun c => { c with similarity_score := some p.2 }) :=
      List.filterMap_cons_some hf
    rw [step, List.map_cons, ih (fun x hx => h x (List.mem_cons_of_mem m hx))]
    rfl

theorem queryFuzzyBrand_scores (store : BrandStore) (name : String) :
    (queryFuzzyBrand store name).map (fun c => c.similarity_score) =
      ((sortByScoreDesc (fuzzyMatches store name)).take 3).map (fun m => some m.2) := by
  unfold queryFuzzyBrand
  apply annotate_scores_map
  intro m hmem
  have hmem2 : m ∈ fuzzyMatches store name :=
    (sortByScoreDesc_perm (fuzzyMatches store name)).mem_iff.mp
      (List.mem_of_mem_take hmem)
  obtain ⟨_, b, hb, hbn, _⟩ := fuzzyMatches_mem store name m hmem2
  rw [← hbn]
  exact queryExactBrand_isSome_of_store store b hb

theorem queryFuzzyBrand_length_le (store : BrandStore) (name : String) :
    (queryFuzzyBrand store name).length ≤ 3 := by
  have h := congrArg List.length (queryFuzzyBrand_scores store name)
  simp only [List.length_map] at h
  rw [h]
  simp [List.length_take]

theorem queryFuzzyBrand_mem_score (store : BrandStore) (name : String) (ctx : BrandContext)
    (hctx : ctx ∈ queryFuzzyBrand store name) :
    ∃ s, ctx.similarity_score = some s ∧ 7/10 < s := by
  unfold queryFuzzyBrand at hctx
  rw [List.mem_filterMap] at hctx
  obtain ⟨m, hmem, hmap⟩ := hctx
  obtain ⟨c0, hc0, hceq⟩ := Option.map_eq_some'.mp hmap
  have hscore : ctx.similarity_score = some m.2 := by
    rw [← hceq]
  have hmem2 : m ∈ fuzzyMatches store name :=
    (sortByScoreDesc_perm (fuzzyMatches store name)).mem_iff.mp
      (List.mem_of_mem_take hmem)
  obtain ⟨hgt, _⟩ := fuzzyMatches_mem store name m hmem2
  exact ⟨m.2, hscore, hgt⟩

theorem queryFuzzyBrand_ne_nil (store : BrandStore) (name : String) (b : BrandRec)
    (hb : b ∈ store)
    (hsim : 7/10 < calculateSimilarity (strToLower name) (strToLower b.name)) :
    queryFuzzyBrand store name ≠ [] := by
  intro hnil
  have h := congrArg List.length (queryFuzzyBrand_scores store name)
  rw [hnil] at h
  simp only [List.map_nil, List.length_nil, List.length_map, List.length_take] at h
  have hmem := fuzzyMatches_of_store store name b hb hsim
  have hlen : (fuzzyMatches store name).length ≠ 0 := by
    intro h0
    rw [List.length_eq_zero] at h0
    rw [h0] at hmem
    exact (List.not_mem_nil _) hmem
  have hslen : (sortByScoreDesc (fuzzyMatches store name)).length =
      (fuzzyMatches store name).length :=
    (sortByScoreDesc_perm (fuzzyMatches store name)).length_eq
  omega

theorem queryExactBrand_no_simscore (store : BrandStore) (name : String) (ctx : BrandContext)
    (h : queryExactBrand store name = some ctx) : ctx.similarity_score = none := by
  unfold queryExactBrand at h
  obtain ⟨b, _, hmap⟩ := Option.map_eq_some'.mp h
  rw [← hmap]

theorem getBrandContext_exact (store : BrandStore) (name : String) (ctx : BrandContext)
    (h : queryExactBrand store name = some ctx) : getBrandContext store name = ctx := by
  unfold getBrandContext
  rw [h]

theorem getBrandContext_fuzzy (store : BrandStore) (name : String)
    (hexact : queryExactBrand store name = none)
    (fm : BrandContext) (fs : List BrandContext)
    (hf : queryFuzzyBrand store name = fm :: fs) : getBrandContext store name = fm := by
  unfold getBrandContext
  rw [hexact, hf]

theorem getBrandContext_fuzzy_simscore_set (store : BrandStore) (name : String)
    (hexact : queryExactBrand store name = none) (b : BrandRec) (hb : b ∈ store)
    (hsim : 7/10 < calculateSimilarity (strToLower name) (strToLower b.name)) :
    (getBrandContext store name).similarity_score ≠ none := by
  cases hq : queryFuzzyBrand store name with
  | nil => exact absurd hq (queryFuzzyBrand_ne_nil store name b hb hsim)
  | cons fm fs =>
    rw [getBrandContext_fuzzy store name hexact fm fs hq]
    obtain ⟨s, hs, _⟩ :=
      queryFuzzyBrand_mem_score store name fm (by rw [hq]; exact List.mem_cons_self fm fs)
    rw [hs]
    exact Option.some_ne_none s

theorem queryBrandVariations_head (store : BrandStore) (name : String) :
    (queryBrandVariations store name).head? =
      (store.find? (fun b => name ∈ b.variations)).map
        (fun b => VariationRec.mk b.name b.attributes) := by
  induction store with
  | nil => rfl
  | cons b rest ih =>
    unfold queryBrandVariations at ih ⊢
    by_cases hv : name ∈ b.variations
    · rw [List.filterMap_cons, List.find?_cons]
      simp [hv]
    · rw [List.filterMap_cons, List.find?_cons]
      simpa [hv] using ih

theorem getBrandContext_variation (store : BrandStore) (name : String) (B : BrandRec)
    (hexact : queryExactBrand store name = none)
    (hfuzzy : queryFuzzyBrand store name = [])
    (hv : store.find? (fun b => name ∈ b.variations) = some B) :
    getBrandContext store name =
      { brand := B.name
        is_variation := true
        variation_type := some "counterfeit"
        attributes := B.attributes
        legitimate_variations := []
        counterfeit_variations := [name] } := by
  have hhead := queryBrandVariations_head store name
  rw [hv] at hhead
  cases hq : queryBrandVariations store name with
  | nil =>
    rw [hq] at hhead
    simp at hhead
  | cons v vs =>
    rw [hq] at hhead
    simp only [List.head?_cons, Option.map_some'] at hhead
    have hveq : v = VariationRec.mk B.name B.attributes := by
      injection hhead
    unfold getBrandContext
    rw [hexact, hfuzzy, hq, hveq]

theorem getBrandContext_unresolved (store : BrandStore) (name : String)
    (hexact : queryExactBrand store name = none)
    (hfuzzy : queryFuzzyBrand store name = [])
    (hvar : queryBrandVariations store name = []) :
    getBrandContext store name =
      { brand := name
        exists_in_graph := false
        attributes := []
        legitimate_variations := []
        counterfeit_variations := [] } := by
  unfold getBrandContext
  rw [hexact, hfuzzy, hvar]

/-- An enriched brand candidate as assembled by `analyze_catalog_item`
(counterfeit_detector.py lines 50-73). -/
structure EnrichedCandidate where
  brand_name : String
  detection_confidence : ℚ
  brand_context : BrandContext
  counterfeit_indicators : List Indicator
  is_counterfeit : Bool
  counterfeit_confidence : ℚ
deriving DecidableEq

/-- Python `max(xs, default=d)`: the maximum of a non-empty list, the
default for an empty one. -/
def pyMax (l : List ℚ) (d : ℚ) : ℚ :=
  match l with
  | [] => d
  | x :: xs => xs.foldl max x

/-- The per-candidate enrichment loop of `analyze_catalog_item`: resolve
the brand, run indicator detection (an oracle standing for the inference
call `_check_counterfeit_indicators`, which is a function of the item,
the candidate name and the resolved context), and score. -/
def enrichCandidates (store : BrandStore)
    (indicatorsFor : String → BrandContext → List Indicator)
    (candidates : List (String × ℚ)) : List EnrichedCandidate :=
  candidates.map fun c =>
    let ctx := getBrandContext store c.1
    let inds := indicatorsFor c.1 ctx
    { brand_name := c.1
      detection_confidence := c.2
      brand_context := ctx
      counterfeit_indicators := inds
      is_counterfeit := inds.length > 0
      counterfeit_confidence := calculateCounterfeitConfidence c.2 inds }

/-- The final analysis record of `analyze_catalog_item`
(counterfeit_detector.py lines 75-91). -/
structure LegacyAnalysis where
  brand_candidates : List EnrichedCandidate
  counterfeit_score : ℚ
  highest_risk_brand : Option String
  is_likely_counterfeit : Bool
  risk_level : RiskLevel
deriving DecidableEq

/-- Shallow embedding of `analyze_catalog_item` (counterfeit_detector.py
lines 36-91).  The brand-candidate extraction and the indicator
detection are inference calls, passed in as the already-extracted
candidate list and an indicator oracle. -/
def analyzeCatalogItem (store : BrandStore)
    (candidates : List (String × ℚ))
    (indicatorsFor : String → BrandContext → List Indicator) : LegacyAnalysis :=
  let enriched := enrichCandidates store indicatorsFor candidates
  let score := pyMax (enriched.map (fun c => c.counterfeit_confidence)) 0
  { brand_candidates := enriched
    counterfeit_score := score
    highest_risk_brand :=
      (enriched.find? (fun c => c.counterfeit_confidence = score)).map (fun c => c.brand_name)
    is_likely_counterfeit := 7/10 < score
    risk_level := getRiskLevel score }

theorem pyMax_mem_bound (l : List ℚ) (d lo hi : ℚ)
    (hd : lo ≤ d ∧ d ≤ hi) (h : ∀ x ∈ l, lo ≤ x ∧ x ≤ hi) :
    lo ≤ pyMax l d ∧ pyMax l d ≤ hi := by
  match l with
  | [] => exact hd
  | x :: xs =>
    show lo ≤ xs.foldl max x ∧ xs.foldl max x ≤ hi
    have key : ∀ (ys : List ℚ) (a : ℚ), lo ≤ a ∧ a ≤ hi → (∀ y ∈ ys, lo ≤ y ∧ y ≤ hi) →
        lo ≤ ys.foldl max a ∧ ys.foldl max a ≤ hi := by
      intro ys
      induction ys with
      | nil => intro a ha _; exact ha
      | cons y ys ih =>
        intro a ha hys
        simp only [List.foldl_cons]
        apply ih
        · have hy := hys y (List.mem_cons_self y ys)
          constructor
          · exact le_trans ha.1 (le_max_left a y)
          · exact max_le ha.2 hy.2
        · intro z hz
          exact hys z (List.mem_cons_of_mem y hz)
    exact key xs x (h x (List.mem_cons_self x xs))
      (fun y hy => h y (List.mem_cons_of_mem x hy))

/-- The counterfeit score of a legacy analysis lies in `[0, 1]` whenever
the inference confidences do: every brand-candidate confidence in
`[0, 1]` and every indicator confidence in `[0, 1]`. -/
theorem analyzeCatalogItem_score_bounds (store : BrandStore)
    (candidates : List (String × ℚ))
    (indicatorsFor : String → BrandContext → List Indicator)
    (hc : ∀ c ∈ candidates, 0 ≤ c.2 ∧ c.2 ≤ 1)
    (hi : ∀ name ctx, ∀ i ∈ indicatorsFor name ctx, 0 ≤ i.confidence ∧ i.confidence ≤ 1) :
    0 ≤ (analyzeCatalogItem store candidates indicatorsFor).counterfeit_score ∧
      (analyzeCatalogItem store candidates indicatorsFor).counterfeit_score ≤ 1 := by
  unfold analyzeCatalogItem
  apply pyMax_mem_bound
  · exact ⟨le_refl 0, zero_le_one⟩
  · intro x hx
    simp only [List.mem_map] at hx
    obtain ⟨e, he, hex⟩ := hx
    unfold enrichCandidates at he
    simp only [List.mem_map] at he
    obtain ⟨c, hc2, hce⟩ := he
    rw [← hex, ← hce]
    simp only
    constructor
    · exact calculateCounterfeitConfidence_nonneg _ _ (hc c hc2).1
        (fun i hmem => (hi _ _ i hmem).1)
    · exact calculateCounterfeitConfidence_le_one _ _

/-- One entry of a batch result: either a successful analysis or the
error record `{"item": ..., "error": ...}` that `analyze_catalog_items`
appends when analysis of one item raises. -/
inductive BatchEntry (α ρ : Type) where
  | ok (r : ρ)
  | err (item : α) (msg : String)
deriving DecidableEq

/-- Shallow embedding of the loop of `analyze_catalog_items`
(counterfeit_detector.py lines 464-490): analyze each item in order,
catching a failure of one item as an error record carrying the item and
the message, and continuing with the rest.  The fallible per-item
analysis (whose failures come from the network calls inside it) is the
parameter `analyzeOne`. -/
def analyzeCatalogItems {α ρ : Type} (analyzeOne : α → Except String ρ) :
    List α → List (BatchEntry α ρ)
  | [] => []
  | item :: rest =>
    (match analyzeOne item with
     | .ok r => .ok r
     | .error e => .err item e) :: analyzeCatalogItems analyzeOne rest

theorem analyzeCatalogItems_length {α ρ : Type} (analyzeOne : α → Except String ρ)
    (items : List α) : (analyzeCatalogItems analyzeOne items).length = items.length := by
  induction items with
  | nil => rfl
  | cons item rest ih =>
    unfold analyzeCatalogItems
    simp only [List.length_cons, ih]

theorem analyzeCatalogItems_getElem {α ρ : Type} (analyzeOne : α → Except String ρ)
    (items : List α) (i : Nat) :
    (analyzeCatalogItems analyzeOne items)[i]? =
      (items[i]?).map (fun item =>
        match analyzeOne item with
        | .ok r => BatchEntry.ok r
        | .error e => BatchEntry.err item e) := by
  induction items generalizing i with
  | nil => simp [analyzeCatalogItems]
  | cons item rest ih =>
    unfold analyzeCatalogItems
    cases i with
    | zero => simp
    | succ i => simpa using ih i

/-- A prompt for the multimodal inference service
(`multi_modal.py`): text plus an ordered list of image references. -/
structure Prompt where
  text : String
  images : List String
deriving DecidableEq

/-- The structured multimodal response (`MultiModalResponse` in
multi_modal.py). -/
structure MMResponse where
  brands : List String
  similarity_score : Option ℚ
  visual_issues : List String
  text_issues : List String
  differences : List String
  is_authentic : Option Bool
  confidence : ℚ
deriving DecidableEq

/-- The brand record returned by `BrandGraphClient.get_brand_data`
(graph_client.py lines 20-46). -/
structure BrandData where
  name : String
  attributes : List (String × List (String × List String))
  reference_images : List String
  variations : List String
deriving DecidableEq

/-- The multimodal prompt built by `analyze_listing_multimodal`
(detector.py lines 51-56): the listing text plus the first 4 listing
images (`listing.get("images", [])[:4]`). -/
structure Listing where
  title : String
  description : String
  images : List String
deriving DecidableEq

def multimodalPrompt (listing : Listing) : Prompt :=
  { text := "Analyze this product listing for counterfeit indicators: " ++
      listing.title ++ " " ++ listing.description
    images := listing.images.take 4 }

/-- The result of `analyze_listing_multimodal` (detector.py lines
58-65). -/
structure MultimodalAnalysis where
  detected_brands : List String
  visual_indicators : List String
  text_indicators : List String
  confidence : ℚ
deriving DecidableEq

/-- Shallow embedding of `analyze_listing_multimodal` (detector.py lines
51-65); `llm` is the inference service, a function from prompt to
structured response. -/
def analyzeListingMultimodal (llm : Prompt → MMResponse) (listing : Listing) :
    MultimodalAnalysis :=
  let response := llm (multimodalPrompt listing)
  { detected_brands := response.brands
    visual_indicators := response.visual_issues
    text_indicators := response.text_issues
    confidence := response.confidence }

/-- The comparison prompt of `compare_with_reference` (detector.py lines
67-72): the listing image followed by the first 3 reference images. -/
def comparePrompt (listing_image : String) (reference_images : List String) : Prompt :=
  { text := "Compare the product image with these authentic reference images. " ++
      "Identify any visual differences that suggest counterfeiting."
    images := listing_image :: reference_images.take 3 }

/-- The result of `compare_with_reference` (detector.py lines 74-79). -/
structure CompareResult where
  match_score : Option ℚ
  visual_differences : List String
  authentication_result : Option Bool
deriving DecidableEq

/-- Shallow embedding of `compare_with_reference` (detector.py lines
67-79). -/
def compareWithReference (llm : Prompt → MMResponse)
    (listing_image : String) (reference_images : List String) : CompareResult :=
  let analysis := llm (comparePrompt listing_image reference_images)
  { match_score := analysis.similarity_score
    visual_differences := analysis.differences
    authentication_result := analysis.is_authentic }

/-- Shallow embedding of `calculate_score` (detector.py lines 81-86):
`min(100, len(indicators) * 10 * confidence)`. -/
def calculateScore (indicators : List String) (confidence : ℚ) : ℚ :=
  min 100 ((indicators.length * 10 : ℚ) * confidence)

/-- The verdict of the package detector (`analyze_listing` and
`analyze_with_context` in detector.py). -/
structure ListingAnalysis where
  score : ℚ
  confidence : ℚ
  indicators : List String
  authentication_result : Option Bool
deriving DecidableEq

/-- Shallow embedding of `analyze_listing` (detector.py lines 13-49):
multimodal analysis, per-brand graph lookups, an optional visual
comparison against the primary (first) detected brand's reference
images, and the weighted score. -/
def analyzeListing (llm : Prompt → MMResponse) (graph : String → BrandData)
    (listing : Listing) : ListingAnalysis :=
  let mm := analyzeListingMultimodal llm listing
  let visual_comparison : Option CompareResult :=
    match listing.images, mm.detected_brands with
    | img :: _, primary :: _ =>
      if (graph primary).reference_images ≠ [] then
        some (compareWithReference llm img (graph primary).reference_images)
      else none
    | _, _ => none
  let indicators := mm.visual_indicators ++ mm.text_indicators ++
    (match visual_comparison with
     | some c => if c.visual_differences ≠ [] then c.visual_differences else []
     | none => [])
  { score := calculateScore indicators mm.confidence
    confidence := mm.confidence
    indicators := indicators
    authentication_result :=
      match visual_comparison with
      | some c => c.authentication_result
      | none => none }

/-- Shallow embedding of `analyze_batch` (detector.py lines 88-93). -/
def analyzeBatch (llm : Prompt → MMResponse) (graph : String → BrandData)
    (listings : List Listing) : List ListingAnalysis :=
  listings.map (analyzeListing llm graph)

/-- The prompt of `analyze_with_context` (detector.py lines 100-103):
brand-aware text plus the first 4 listing images. -/
def contextPrompt (detected_brand : String) (listing : Listing) : Prompt :=
  { text := "Analyze this product listing for counterfeit indicators of " ++
      detected_brand ++ ": " ++ listing.title ++ " " ++ listing.description
    images := listing.images.take 4 }

/-- Shallow embedding of `analyze_with_context` (detector.py lines
95-130): like `analyze_listing` but with the detected brand and its
prefetched brand data passed in, issuing no graph calls. -/
def analyzeWithContext (llm : Prompt → MMResponse) (listing : Listing)
    (detected_brand : String) (brand_data : BrandData) : ListingAnalysis :=
  let response := llm (contextPrompt detected_brand listing)
  let visual_comparison : Option CompareResult :=
    match listing.images with
    | img :: _ =>
      if brand_data.reference_images ≠ [] then
        some (compareWithReference llm img brand_data.reference_images)
      else none
    | [] => none
  let indicators := response.visual_issues ++ response.text_issues ++
    (match visual_comparison with
     | some c => if c.visual_differences ≠ [] then c.visual_differences else []
     | none => [])
  { score := calculateScore indicators response.confidence
    confidence := response.confidence
    indicators := indicators
    authentication_result :=
      match visual_comparison with
      | some c => c.authentication_result
      | none => none }

/-- Append a listing to its brand's group, preserving first-occurrence
group order, as the Python dict insertion in `_group_by_brand`
(batch_processor.py lines 77-87) does. -/
def addToGroup {A : Type} (groups : List (String × List A)) (brand : String) (x : A) :
    List (String × List A) :=
  match groups with
  | [] => [(brand, [x])]
  | (b, xs) :: rest =>
    if b = brand then (b, xs ++ [x]) :: rest
    else (b, xs) :: addToGroup rest brand x

/-- Shallow embedding of `_group_by_brand` (batch_processor.py lines
69-89): each listing is assigned its primary detected brand (the
batched inference call `_batch_brand_detection`, modelled by the oracle
`detect`) and grouped by that brand. -/
def groupByBrand (detect : Listing → String) (listings : List Listing) :
    List (String × List Listing) :=
  listings.foldl (fun gs l => addToGroup gs (detect l) l) []


/-- The result-collection loop of `process_batch` (batch_processor.py
lines 62-65): `for future in futures: results.append(future.result())`.
`future.result()` re-raises the task's exception, so the first failed
task aborts the collection and the whole batch call. -/
def collectResults {ρ : Type} : List (Except String ρ) → Except String (List ρ)
  | [] => .ok []
  | r :: rest =>
    match r with
    | .error e => .error e
    | .ok v =>
      match collectResults rest with
      | .error e => .error e
      | .ok vs => .ok (v :: vs)

/-- Shallow embedding of `process_batch` (batch_processor.py lines
39-67): group by brand, prefetch brand data for the group keys in one
graph operation, submit one task per listing (in group order), and
collect every `future.result()`.  `analyzeCtx` stands for
`_process_single_listing`, whose body (`analyze_with_context`) can raise
through its network calls. -/
def processBatch {ρ : Type} (detect : Listing → String) (graph : String → BrandData)
    (analyzeCtx : Listing → String → BrandData → Except String ρ)
    (listings : List Listing) : Except String (List ρ) :=
  let groups := groupByBrand detect listings
  let futures := groups.flatMap fun g => g.2.map fun l => analyzeCtx l g.1 (graph g.1)
  collectResults futures

/-- The chunk split of `process_large_dataset` (batch_processor.py lines
25-26): `listings[i:i+batch_size]` for `i = 0, batch_size, ...`.  The
fuel argument (instantiated with the list length) makes the recursion
structural; fuel at least the number of chunks gives the same result
when `batch_size ≥ 1`. -/
def chunksFuel {A : Type} (batch_size : Nat) : Nat → List A → List (List A)
  | _, [] => []
  | 0, _ :: _ => []
  | fuel + 1, x :: rest =>
    (x :: rest).take batch_size :: chunksFuel batch_size fuel ((x :: rest).drop batch_size)

def listChunks {A : Type} (batch_size : Nat) (l : List A) : List (List A) :=
  chunksFuel batch_size l.length l

/-- The sequential chunk loop of `process_large_dataset`
(batch_processor.py lines 25-35): process each chunk with
`process_batch` and extend the accumulated results; an exception from a
chunk propagates out of the loop. -/
def processChunks {ρ : Type} (detect : Listing → String) (graph : String → BrandData)
    (analyzeCtx : Listing → String → BrandData → Except String ρ) :
    List (List Listing) → Except String (List ρ)
  | [] => .ok []
  | chunk :: rest =>
    match processBatch detect graph analyzeCtx chunk with
    | .error e => .error e
    | .ok rs =>
      match processChunks detect graph analyzeCtx rest with
      | .error e => .error e
      | .ok rest2 => .ok (rs ++ rest2)

/-- Shallow embedding of `process_large_dataset` (batch_processor.py
lines 19-37). -/
def processLargeDataset {ρ : Type} (batch_size : Nat) (detect : Listing → String)
    (graph : String → BrandData)
    (analyzeCtx : Listing → String → BrandData → Except String ρ)
    (listings : List Listing) : Except String (List ρ) :=
  processChunks detect graph analyzeCtx (listChunks batch_size listings)

theorem chunksFuel_join {A : Type} (batch_size : Nat) (hbs : 1 ≤ batch_size) :
    ∀ (fuel : Nat) (l : List A), l.length ≤ fuel →
      (chunksFuel batch_size fuel l).flatten = l := by
  intro fuel
  induction fuel with
  | zero =>
    intro l hl
    cases l with
    | nil => rfl
    | cons x rest => simp at hl
  | succ fuel ih =>
    intro l hl
    cases l with
    | nil => rfl
    | cons x rest =>
      show ((x :: rest).take batch_size ::
        chunksFuel batch_size fuel ((x :: rest).drop batch_size)).flatten = x :: rest
      rw [List.flatten_cons,
        ih ((x :: rest).drop batch_size)
          (by simp only [List.length_drop, List.length_cons] at hl ⊢; omega)]
      exact List.take_append_drop batch_size (x :: rest)

theorem listChunks_join {A : Type} (batch_size : Nat) (hbs : 1 ≤ batch_size) (l : List A) :
    (listChunks batch_size l).flatten = l :=
  chunksFuel_join batch_size hbs l.length l (le_refl _)

/-- The total number of listings across the groups. -/
def groupsSize {A : Type} (groups : List (String × List A)) : Nat :=
  (groups.map (fun g => g.2.length)).sum

theorem addToGroup_size {A : Type} (groups : List (String × List A)) (brand : String)
    (x : A) : groupsSize (addToGroup groups brand x) = groupsSize groups + 1 := by
  induction groups with
  | nil => rfl
  | cons g rest ih =>
    obtain ⟨b, xs⟩ := g
    unfold addToGroup
    split
    · simp [groupsSize]
      omega
    · simp only [groupsSize, List.map_cons, List.sum_cons] at ih ⊢
      omega

theorem groupByBrand_size (detect : Listing → String) (listings : List Listing) :
    groupsSize (groupByBrand detect listings) = listings.length := by
  have key : ∀ (ls : List Listing) (gs : List (String × List Listing)),
      groupsSize (ls.foldl (fun acc l => addToGroup acc (detect l) l) gs) =
        groupsSize gs + ls.length := by
    intro ls
    induction ls with
    | nil => intro gs; simp
    | cons l rest ih =>
      intro gs
      simp only [List.foldl_cons, List.length_cons]
      rw [ih, addToGroup_size]
      omega
  unfold groupByBrand
  rw [key]
  simp [groupsSize]

theorem flatMap_length_eq_groupsSize {A B : Type} (groups : List (String × List A))
    (F : String × List A → List B) (hF : ∀ g, (F g).length = g.2.length) :
    (groups.flatMap F).length = groupsSize groups := by
  induction groups with
  | nil => rfl
  | cons g rest ih =>
    rw [List.flatMap_cons]
    simp only [List.length_append, hF, groupsSize, List.map_cons, List.sum_cons]
    simp only [groupsSize] at ih
    omega

theorem collectResults_ok_length {ρ : Type} :
    ∀ (l : List (Except String ρ)) (rs : List ρ),
      collectResults l = Except.ok rs → rs.length = l.length := by
  intro l
  induction l with
  | nil =>
    intro rs h
    unfold collectResults at h
    cases h
    rfl
  | cons r rest ih =>
    intro rs h
    unfold collectResults at h
    cases r with
    | error e => cases h
    | ok v =>
      cases hrest : collectResults rest with
      | error e => rw [hrest] at h; cases h
      | ok vs =>
        rw [hrest] at h
        cases h
        simp only [List.length_cons]
        rw [ih vs hrest]

theorem processBatch_ok_length {ρ : Type} (detect : Listing → String)
    (graph : String → BrandData)
    (analyzeCtx : Listing → String → BrandData → Except String ρ)
    (listings : List Listing) (rs : List ρ)
    (h : processBatch detect graph analyzeCtx listings = Except.ok rs) :
    rs.length = listings.length := by
  unfold processBatch at h
  have hlen := collectResults_ok_length _ _ h
  rw [flatMap_length_eq_groupsSize (groupByBrand detect listings)
    (fun g => g.2.map fun l => analyzeCtx l g.1 (graph g.1))
    (fun g => List.length_map _ _)] at hlen
  rw [groupByBrand_size] at hlen
  exact hlen


theorem processChunks_ok_length {ρ : Type} (detect : Listing → String)
    (graph : String → BrandData)
    (analyzeCtx : Listing → String → BrandData → Except String ρ) :
    ∀ (chunks : List (List Listing)) (rs : List ρ),
      processChunks detect graph analyzeCtx chunks = Except.ok rs →
      rs.length = chunks.flatten.length := by
  intro chunks
  induction chunks with
  | nil =>
    intro rs h
    unfold processChunks at h
    cases h
    rfl
  | cons chunk rest ih =>
    intro rs h
    unfold processChunks at h
    cases hb : processBatch detect graph analyzeCtx chunk with
    | error e => rw [hb] at h; cases h
    | ok cr =>
      rw [hb] at h
      cases hr : processChunks detect graph analyzeCtx rest with
      | error e => rw [hr] at h; cases h
      | ok rr =>
        rw [hr] at h
        cases h
        rw [List.flatten_cons, List.length_append, List.length_append,
          processBatch_ok_length detect graph analyzeCtx chunk cr hb, ih rr hr]

theorem processLargeDataset_ok_length {ρ : Type} (batch_size : Nat)
    (hbs : 1 ≤ batch_size) (detect : Listing → String) (graph : String → BrandData)
    (analyzeCtx : Listing → String → BrandData → Except String ρ)
    (listings : List Listing) (rs : List ρ)
    (h : processLargeDataset batch_size detect graph analyzeCtx listings = Except.ok rs) :
    rs.length = listings.length := by
  unfold processLargeDataset at h
  have hlen := processChunks_ok_length detect graph analyzeCtx _ rs h
  rw [listChunks_join batch_size hbs listings] at hlen
  exact hlen

/-- The primary detected brand of `analyze_listing`:
`multimodal_analysis["detected_brands"][0]` when it exists. -/
def firstDetectedBrand (llm : Prompt → MMResponse) (listing : Listing) : Option String :=
  (llm (multimodalPrompt listing)).brands.head?

theorem take3_eq_nil_iff {A : Type} (l l2 : List A) (h : l.take 3 = l2.take 3) :
    l = [] ↔ l2 = [] := by
  cases l <;> cases l2 <;> simp_all

theorem analyzeListing_take4 (llm : Prompt → MMResponse) (graph : String → BrandData)
    (listing : Listing) :
    analyzeListing llm graph { listing with images := listing.images.take 4 } =
      analyzeListing llm graph listing := by
  have hp : multimodalPrompt { listing with images := listing.images.take 4 } =
      multimodalPrompt listing := by
    unfold multimodalPrompt
    simp [List.take_take]
  simp only [analyzeListing, analyzeListingMultimodal, hp]
  cases himg : listing.images with
  | nil => rfl
  | cons img t =>
    have h4 : List.take 4 (img :: t) = img :: List.take 3 t := rfl
    rw [h4]
    cases hbr : (llm (multimodalPrompt listing)).brands with
    | nil => simp
    | cons primary rest => simp

theorem analyzeListing_refs_take3 (llm : Prompt → MMResponse)
    (g g2 : String → BrandData) (listing : Listing)
    (hg : ∀ b, (g2 b).reference_images.take 3 = (g b).reference_images.take 3) :
    analyzeListing llm g2 listing = analyzeListing llm g listing := by
  simp only [analyzeListing]
  cases himg : listing.images with
  | nil => rfl
  | cons img t =>
    cases hbr : (analyzeListingMultimodal llm listing).detected_brands with
    | nil => rfl
    | cons primary rest =>
      have hcomp : compareWithReference llm img (g2 primary).reference_images =
          compareWithReference llm img (g primary).reference_images := by
        unfold compareWithReference comparePrompt
        rw [hg primary]
      have hnil := take3_eq_nil_iff _ _ (hg primary)
      by_cases hre : (g primary).reference_images = []
      · have hre2 : (g2 primary).reference_images = [] := hnil.mpr hre
        simp [hre, hre2]
      · have hre2 : (g2 primary).reference_images ≠ [] := fun h2 => hre (hnil.mp h2)
        simp [hre, hre2, hcomp]

theorem analyzeListing_first_brand_only (llm : Prompt → MMResponse)
    (g g2 : String → BrandData) (listing : Listing)
    (hg : ∀ b, firstDetectedBrand llm listing = some b → g2 b = g b) :
    analyzeListing llm g2 listing = analyzeListing llm g listing := by
  simp only [analyzeListing]
  cases himg : listing.images with
  | nil => rfl
  | cons img t =>
    cases hbr : (analyzeListingMultimodal llm listing).detected_brands with
    | nil => rfl
    | cons primary rest =>
      have hb2 : (llm (multimodalPrompt listing)).brands = primary :: rest := hbr
      have hfirst : firstDetectedBrand llm listing = some primary := by
        unfold firstDetectedBrand
        rw [hb2]
        rfl
      have hgp := hg primary hfirst
      simp [hgp]

theorem calculateScore_bounds (indicators : List String) (confidence : ℚ)
    (hc : 0 ≤ confidence) :
    0 ≤ calculateScore indicators confidence ∧ calculateScore indicators confidence ≤ 100 := by
  unfold calculateScore
  constructor
  · apply le_min_iff.mpr
    constructor
    · norm_num
    · positivity
  · exact min_le_left _ _

theorem analyzeListing_score_shape (llm : Prompt → MMResponse) (graph : String → BrandData)
    (listing : Listing) :
    (analyzeListing llm graph listing).score =
      calculateScore (analyzeListing llm graph listing).indicators
        (llm (multimodalPrompt listing)).confidence := rfl

theorem analyzeListing_score_bounds (llm : Prompt → MMResponse) (graph : String → BrandData)
    (listing : Listing) (hc : ∀ p, 0 ≤ (llm p).confidence) :
    0 ≤ (analyzeListing llm graph listing).score ∧
      (analyzeListing llm graph listing).score ≤ 100 := by
  rw [analyzeListing_score_shape]
  exact calculateScore_bounds _ _ (hc _)

theorem analyzeWithContext_score_shape (llm : Prompt → MMResponse) (listing : Listing)
    (detected_brand : String) (brand_data : BrandData) :
    (analyzeWithContext llm listing detected_brand brand_data).score =
      calculateScore (analyzeWithContext llm listing detected_brand brand_data).indicators
        (llm (contextPrompt detected_brand listing)).confidence := rfl

theorem analyzeWithContext_score_bounds (llm : Prompt → MMResponse) (listing : Listing)
    (detected_brand : String) (brand_data : BrandData)
    (hc : ∀ p, 0 ≤ (llm p).confidence) :
    0 ≤ (analyzeWithContext llm listing detected_brand brand_data).score ∧
      (analyzeWithContext llm listing detected_brand brand_data).score ≤ 100 := by
  rw [analyzeWithContext_score_shape]
  exact calculateScore_bounds _ _ (hc _)

/-- C6: the indicator score is the weighted mean of the indicators'
confidences with type weights name_variation=1.0, known_pattern=1.0,
attribute_mismatch=0.8, price_indicator=0.7, description_red_flag=0.6
and 0.5 for any other type; the empty list scores 0.0, and the score is
monotonically non-decreasing when any single indicator's confidence
increases while all others are held fixed. -/
theorem claim_c6_indicator_score :
    indicatorScore [] = 0 ∧
    (∀ indicators : List Indicator, indicators ≠ [] →
      indicatorScore indicators =
        (indicators.map fun i => i.confidence * indicatorWeight i.indicator_type).sum /
          (indicators.map fun i => indicatorWeight i.indicator_type).sum) ∧
    (indicatorWeight "name_variation" = 1 ∧ indicatorWeight "known_pattern" = 1 ∧
      indicatorWeight "attribute_mismatch" = 8/10 ∧
      indicatorWeight "price_indicator" = 7/10 ∧
      indicatorWeight "description_red_flag" = 6/10) ∧
    (∀ t : String,
      t ∉ ["name_variation", "attribute_mismatch", "description_red_flag",
        "price_indicator", "known_pattern"] → indicatorWeight t = 1/2) ∧
    (∀ (pre post : List Indicator) (i j : Indicator),
      j.indicator_type = i.indicator_type → i.confidence ≤ j.confidence →
      indicatorScore (pre ++ i :: post) ≤ indicatorScore (pre ++ j :: post)) := by
  refine ⟨indicatorScore_nil, indicatorScore_eq_weighted_mean, ⟨rfl, rfl, rfl, rfl, rfl⟩,
    ?_, indicatorScore_mono⟩
  intro t ht
  simp only [List.mem_cons, List.not_mem_nil, or_false, not_or] at ht
  obtain ⟨h1, h2, h3, h4, h5⟩ := ht
  unfold indicatorWeight
  rw [if_neg h1, if_neg h2, if_neg h3, if_neg h4, if_neg h5]

/-- C6 witness: the monotonicity part applied to a concrete pair of
indicator lists. -/
theorem claim_c6_indicator_score_witness :
    indicatorScore [⟨"price_indicator", 3/10⟩] ≤ indicatorScore [⟨"price_indicator", 6/10⟩] :=
  claim_c6_indicator_score.2.2.2.2 [] [] ⟨"price_indicator", 3/10⟩
    ⟨"price_indicator", 6/10⟩ rfl (by norm_num)

/-- C7: the combined final confidence equals
`min(1, indicatorScore * (0.5 + 0.5 * brandConf))`; at brand confidence
0 it is half the indicator score, at brand confidence 1 it is the
indicator score itself, and in general it scales the indicator score by
a factor between 0.5 and 1, never gating a positive score to zero. -/
theorem claim_c7_final_confidence :
    (∀ (b : ℚ) (indicators : List Indicator),
      calculateCounterfeitConfidence b indicators =
        specFinalConfidence b (indicatorScore indicators)) ∧
    (∀ X : ℚ, 0 ≤ X → X ≤ 1 →
      specFinalConfidence 0 X = 1/2 * X ∧ specFinalConfidence 1 X = X) ∧
    (∀ b X : ℚ, 0 ≤ b → b ≤ 1 → 0 ≤ X → X ≤ 1 →
      specFinalConfidence b X = X * (1/2 + 1/2 * b) ∧
      1/2 * X ≤ specFinalConfidence b X ∧ specFinalConfidence b X ≤ X ∧
      (0 < X → 0 < specFinalConfidence b X)) := by
  refine ⟨calculateCounterfeitConfidence_eq_spec, ?_, ?_⟩
  · intro X hX0 hX1
    constructor
    · unfold specFinalConfidence
      rw [min_eq_right (by linarith)]
      ring
    · unfold specFinalConfidence
      rw [min_eq_right (by linarith)]
      ring
  · intro b X hb0 hb1 hX0 hX1
    have hfac1 : 1/2 + 1/2 * b ≤ 1 := by linarith
    have hfac0 : (0:ℚ) < 1/2 + 1/2 * b := by linarith
    have hle : X * (1/2 + 1/2 * b) ≤ 1 := by nlinarith
    have heq : specFinalConfidence b X = X * (1/2 + 1/2 * b) := by
      unfold specFinalConfidence
      exact min_eq_right hle
    refine ⟨heq, ?_, ?_, ?_⟩
    · rw [heq]; nlinarith
    · rw [heq]; nlinarith
    · intro hX; rw [heq]; positivity

/-- C7 witness: the identities applied at `X = 3/5`, `b = 0` and
`b = 1`. -/
theorem claim_c7_final_confidence_witness :
    specFinalConfidence 0 (3/5) = 1/2 * (3/5) ∧ specFinalConfidence 1 (3/5) = 3/5 :=
  claim_c7_final_confidence.2.1 (3/5) (by norm_num) (by norm_num)

/-- C8: the risk level is HIGH for scores at or above 0.8, MEDIUM from
0.5 up to (excluding) 0.8, LOW for positive scores below 0.5, NONE at
zero; the boundary values 0.8 and 0.5 map upward, 0.79999 maps to
MEDIUM and 0.0 to NONE. -/
theorem claim_c8_risk_level (s : ℚ) :
    (8/10 ≤ s → getRiskLevel s = RiskLevel.HIGH) ∧
    (5/10 ≤ s ∧ s < 8/10 → getRiskLevel s = RiskLevel.MEDIUM) ∧
    (0 < s ∧ s < 5/10 → getRiskLevel s = RiskLevel.LOW) ∧
    (s = 0 → getRiskLevel s = RiskLevel.NONE) ∧
    getRiskLevel (8/10) = RiskLevel.HIGH ∧
    getRiskLevel (79999/100000) = RiskLevel.MEDIUM ∧
    getRiskLevel (5/10) = RiskLevel.MEDIUM ∧
    getRiskLevel 0 = RiskLevel.NONE := by
  refine ⟨getRiskLevel_high s, fun h => getRiskLevel_medium s h.1 h.2,
    fun h => getRiskLevel_low s h.1 h.2, fun h => h ▸ getRiskLevel_none 0 (le_refl 0),
    getRiskLevel_high _ (by norm_num), getRiskLevel_medium _ (by norm_num) (by norm_num),
    getRiskLevel_medium _ (by norm_num) (by norm_num), getRiskLevel_none 0 (le_refl 0)⟩

/-- C8 witness: the HIGH tier applied at the concrete score 0.9. -/
theorem claim_c8_risk_level_witness : getRiskLevel (9/10) = RiskLevel.HIGH :=
  (claim_c8_risk_level (9/10)).1 (by norm_num)

/-- C9: string similarity lies in [0,1] and is symmetric; a non-empty
string has similarity 1.0 with itself; an empty argument gives 0.0; for
non-empty inputs it equals `1 - editDistance / max(len1, len2)` where
`editDistance` satisfies the classic unit-cost
insert/delete/substitute recurrence. -/
theorem claim_c9_similarity :
    (∀ a b : String, 0 ≤ calculateSimilarity a b ∧ calculateSimilarity a b ≤ 1) ∧
    (∀ a b : String, calculateSimilarity a b = calculateSimilarity b a) ∧
    (∀ s : String, s.length ≠ 0 → calculateSimilarity s s = 1) ∧
    (∀ b : String, calculateSimilarity "" b = 0 ∧ calculateSimilarity b "" = 0) ∧
    (∀ a b : String, a.length ≠ 0 → b.length ≠ 0 →
      calculateSimilarity a b =
        1 - ((editDistance a.data b.data : ℚ) / ((max a.length b.length : Nat) : ℚ))) ∧
    (∀ ys : List Char, editDistance [] ys = ys.length) ∧
    (∀ xs : List Char, editDistance xs [] = xs.length) ∧
    (∀ (x y : Char) (xs ys : List Char), editDistance (x :: xs) (y :: ys) =
      if x = y then editDistance xs ys
      else 1 + min (editDistance xs (y :: ys))
        (min (editDistance (x :: xs) ys) (editDistance xs ys))) :=
  ⟨fun a b => ⟨calculateSimilarity_nonneg a b, calculateSimilarity_le_one a b⟩,
    calculateSimilarity_comm, calculateSimilarity_self,
    fun b => ⟨calculateSimilarity_empty_left b, calculateSimilarity_empty_right b⟩,
    calculateSimilarity_eq_formula, editDistance_nil_left, editDistance_nil_right,
    editDistance_cons_cons⟩

/-- C9 witness: self-similarity of the concrete non-empty string "ab". -/
theorem claim_c9_similarity_witness : calculateSimilarity "ab" "ab" = 1 :=
  claim_c9_similarity.2.2.1 "ab" (by decide)

/-- C5: brand resolution tries exact match, then fuzzy match, then
counterfeit-variant match, in that strict order, short-circuiting on the
first success; an exact-match result has no similarity_score; a name
equalling a stored counterfeit variant of brand B (with no exact or
fuzzy match) yields is_variation=true, canonical brand B, and
counterfeit_variations containing only the input name; when all three
paths fail the result has exists_in_graph=false, empty attributes and
empty variant lists. -/
theorem claim_c5_resolution_order :
    (∀ (store : BrandStore) (name : String) (ctx : BrandContext),
      queryExactBrand store name = some ctx →
      getBrandContext store name = ctx ∧ ctx.similarity_score = none) ∧
    (∀ (store : BrandStore) (name : String) (fm : BrandContext) (fs : List BrandContext),
      queryExactBrand store name = none → queryFuzzyBrand store name = fm :: fs →
      getBrandContext store name = fm) ∧
    (∀ (store : BrandStore) (name : String) (B : BrandRec),
      queryExactBrand store name = none → queryFuzzyBrand store name = [] →
      store.find? (fun b => name ∈ b.variations) = some B →
      (getBrandContext store name).is_variation = true ∧
      (getBrandContext store name).brand = B.name ∧
      (getBrandContext store name).counterfeit_variations = [name] ∧
      (getBrandContext store name).attributes = B.attributes) ∧
    (∀ (store : BrandStore) (name : String),
      queryExactBrand store name = none → queryFuzzyBrand store name = [] →
      queryBrandVariations store name = [] →
      getBrandContext store name =
        { brand := name, exists_in_graph := false, attributes := [],
          legitimate_variations := [], counterfeit_variations := [] }) := by
  refine ⟨?_, fun store name fm fs hx hf => getBrandContext_fuzzy store name hx fm fs hf,
    ?_, getBrandContext_unresolved⟩
  · intro store name ctx h
    exact ⟨getBrandContext_exact store name ctx h, queryExactBrand_no_simscore store name ctx h⟩
  · intro store name B hexact hfuzzy hfind
    rw [getBrandContext_variation store name B hexact hfuzzy hfind]
    exact ⟨rfl, rfl, rfl, rfl⟩

/-- A one-brand store whose brand "nike" lists the counterfeit variant
"nikey knockoff", used to exercise the variant branch of resolution. -/
def variantStore : BrandStore := [⟨"nike", [("style", ["athletic"])], ["nikey knockoff"]⟩]

theorem variantStore_no_fuzzy : queryFuzzyBrand variantStore "nikey knockoff" = [] := by
  have hd : editDistance "nikey knockoff".data "nike".data = 10 := by decide
  have hsim : calculateSimilarity (strToLower "nikey knockoff") (strToLower "nike") = 2/7 := by
    have hlow1 : strToLower "nikey knockoff" = "nikey knockoff" := rfl
    have hlow2 : strToLower "nike" = "nike" := rfl
    have hl1 : "nikey knockoff".length = 14 := by decide
    have hl2 : "nike".length = 4 := by decide
    rw [hlow1, hlow2, calculateSimilarity_eq_formula _ _ (by decide) (by decide), hd, hl1, hl2]
    norm_num
  have hm : fuzzyMatches variantStore "nikey knockoff" = [] := by
    unfold fuzzyMatches variantStore
    rw [List.filterMap_cons]
    simp only [List.filterMap_nil]
    rw [if_neg (by rw [hsim]; norm_num)]
  unfold queryFuzzyBrand
  rw [hm]
  rfl

/-- C5 witness: the variant branch applied to the concrete store: the
name "nikey knockoff" has no exact or fuzzy match but is a stored
variant of "nike", so resolution marks it as a counterfeit variation of
"nike". -/
theorem claim_c5_resolution_order_witness :
    (getBrandContext variantStore "nikey knockoff").is_variation = true ∧
    (getBrandContext variantStore "nikey knockoff").brand = "nike" ∧
    (getBrandContext variantStore "nikey knockoff").counterfeit_variations =
      ["nikey knockoff"] ∧
    (getBrandContext variantStore "nikey knockoff").attributes =
      [("style", ["athletic"])] :=
  claim_c5_resolution_order.2.2.1 variantStore "nikey knockoff"
    ⟨"nike", [("style", ["athletic"])], ["nikey knockoff"]⟩
    (by decide) variantStore_no_fuzzy (by decide)

/-- C10: the single-listing multimodal analysis sends at most the first
4 listing images to the inference service; the visual reference
comparison uses only the first listing image and at most the first 3
reference images of only the first detected brand; images beyond those
prefixes never influence the verdict. -/
theorem claim_c10_image_limits :
    (∀ listing : Listing, (multimodalPrompt listing).images = listing.images.take 4 ∧
      (multimodalPrompt listing).images.length ≤ 4) ∧
    (∀ (img : String) (refs : List String),
      (comparePrompt img refs).images = img :: refs.take 3 ∧
      (comparePrompt img refs).images.length ≤ 4) ∧
    (∀ (llm : Prompt → MMResponse) (graph : String → BrandData) (listing : Listing),
      analyzeListing llm graph { listing with images := listing.images.take 4 } =
        analyzeListing llm graph listing) ∧
    (∀ (llm : Prompt → MMResponse) (g g2 : String → BrandData) (listing : Listing),
      (∀ b, (g2 b).reference_images.take 3 = (g b).reference_images.take 3) →
      analyzeListing llm g2 listing = analyzeListing llm g listing) ∧
    (∀ (llm : Prompt → MMResponse) (g g2 : String → BrandData) (listing : Listing),
      (∀ b, firstDetectedBrand llm listing = some b → g2 b = g b) →
      analyzeListing llm g2 listing = analyzeListing llm g listing) := by
  refine ⟨?_, ?_, analyzeListing_take4, analyzeListing_refs_take3,
    analyzeListing_first_brand_only⟩
  · intro listing
    refine ⟨rfl, ?_⟩
    show (listing.images.take 4).length ≤ 4
    rw [List.length_take]
    omega
  · intro img refs
    refine ⟨rfl, ?_⟩
    simp only [comparePrompt, List.length_cons, List.length_take]
    omega

/-- A constant inference oracle, a trivial graph and a small listing,
used as concrete inputs for witnesses and counterexamples. -/
def constLLM : Prompt → MMResponse :=
  fun _ => ⟨["Nike"], none, ["fake logo"], [], [], none, 1⟩

def refGraphA : String → BrandData :=
  fun b => ⟨b, [], ["r1", "r2", "r3", "r4"], []⟩

def refGraphB : String → BrandData :=
  fun b => ⟨b, [], ["r1", "r2", "r3", "r5"], []⟩

def smallListing : Listing := ⟨"Nike shoes", "great shoes", ["img1", "img2"]⟩

/-- C10 witness: two graph stores differing only in the fourth reference
image produce identical verdicts. -/
theorem claim_c10_image_limits_witness :
    analyzeListing constLLM refGraphB smallListing =
      analyzeListing constLLM refGraphA smallListing :=
  claim_c10_image_limits.2.2.2.1 constLLM refGraphA refGraphB smallListing
    (fun _ => rfl)

/-- C1 counterexample: in the "Nikey AirMax Elite" scenario (one
name_variation indicator at 0.9, one price_indicator at 0.7, brand
detection confidence 0.8) the indicator score is not 0.847, the final
confidence is not 0.763, and the risk level is not HIGH: the claimed
arithmetic `(0.9*1.0 + 0.7*0.7)/(1.0+0.7)` actually evaluates to
139/170 = 0.8176..., the final confidence to 1251/1700 = 0.7358..., and
0.7358... falls in the MEDIUM band. -/
theorem claim_c1_counterexample :
    indicatorScore nikeyIndicators ≠ 847/1000 ∧
    calculateCounterfeitConfidence (8/10) nikeyIndicators ≠ 763/1000 ∧
    getRiskLevel (calculateCounterfeitConfidence (8/10) nikeyIndicators) ≠
      RiskLevel.HIGH := by
  refine ⟨?_, ?_, ?_⟩
  · rw [nikeyIndicatorScore]; norm_num
  · rw [nikeyFinalConfidence]; norm_num
  · rw [nikeyFinalConfidence, getRiskLevel_medium _ (by norm_num) (by norm_num)]
    decide

/-- C1 (amended): for the single brand candidate at detection confidence
0.8 with one name_variation indicator at 0.9 and one price_indicator at
0.7, the indicator score equals (0.9*1.0 + 0.7*0.7)/(1.0+0.7) = 139/170
(= 0.8176...), the final confidence equals
min(1, (139/170)*(0.5+0.5*0.8)) = 1251/1700 (= 0.7358...), and the
resulting risk level is MEDIUM. -/
theorem claim_c1_amended :
    indicatorScore nikeyIndicators = (9/10 * 1 + 7/10 * (7/10)) / (1 + 7/10) ∧
    indicatorScore nikeyIndicators = 139/170 ∧
    calculateCounterfeitConfidence (8/10) nikeyIndicators =
      min 1 (139/170 * (1/2 + 1/2 * (8/10))) ∧
    calculateCounterfeitConfidence (8/10) nikeyIndicators = 1251/1700 ∧
    getRiskLevel (calculateCounterfeitConfidence (8/10) nikeyIndicators) =
      RiskLevel.MEDIUM := by
  refine ⟨?_, nikeyIndicatorScore, ?_, nikeyFinalConfidence, ?_⟩
  · rw [nikeyIndicatorScore]; norm_num
  · rw [nikeyFinalConfidence]; norm_num
  · rw [nikeyFinalConfidence]
    exact getRiskLevel_medium _ (by norm_num) (by norm_num)

/-- A one-brand store at exactly the similarity boundary: the stored
brand "aaaaaaabbb" is at edit distance 3 from the probe "aaaaaaaaaa"
(length 10), similarity exactly 0.7. -/
def boundaryStore : BrandStore := [⟨"aaaaaaabbb", [], []⟩]

/-- C2 counterexample: a name scoring exactly 0.7 against the only
stored canonical brand is NOT kept by fuzzy matching (the code tests
`similarity > 0.7`, strictly), so resolution falls through to the
unresolved record with no similarity_score — the boundary value 0.7 is
excluded, not included. -/
theorem claim_c2_counterexample :
    calculateSimilarity (strToLower "aaaaaaaaaa") (strToLower "aaaaaaabbb") = 7/10 ∧
    queryFuzzyBrand boundaryStore "aaaaaaaaaa" = [] ∧
    (getBrandContext boundaryStore "aaaaaaaaaa").similarity_score = none := by
  have hd : editDistance "aaaaaaaaaa".data "aaaaaaabbb".data = 3 := by decide
  have hl1 : "aaaaaaaaaa".length = 10 := by decide
  have hl2 : "aaaaaaabbb".length = 10 := by decide
  have hsim : calculateSimilarity (strToLower "aaaaaaaaaa") (strToLower "aaaaaaabbb") =
      7/10 := by
    have hlow1 : strToLower "aaaaaaaaaa" = "aaaaaaaaaa" := rfl
    have hlow2 : strToLower "aaaaaaabbb" = "aaaaaaabbb" := rfl
    rw [hlow1, hlow2, calculateSimilarity_eq_formula _ _ (by decide) (by decide), hd, hl1, hl2]
    norm_num
  have hm : fuzzyMatches boundaryStore "aaaaaaaaaa" = [] := by
    unfold fuzzyMatches boundaryStore
    rw [List.filterMap_cons]
    simp only [List.filterMap_nil]
    rw [if_neg (by rw [hsim]; norm_num)]
  have hq : queryFuzzyBrand boundaryStore "aaaaaaaaaa" = [] := by
    unfold queryFuzzyBrand
    rw [hm]
    rfl
  refine ⟨hsim, hq, ?_⟩
  rw [getBrandContext_unresolved boundaryStore "aaaaaaaaaa" (by decide) hq (by decide)]

/-- C2 (amended): fuzzy matching keeps every stored canonical brand
whose similarity to the lower-cased input is STRICTLY ABOVE the
threshold 0.7 (the boundary value 0.7 itself is excluded), sorts the
kept brands descending by similarity with ties broken by
first-encountered store order (stable sort), and returns at most the
top 3, each annotated with similarity_score; in particular, a name with
no exact match scoring strictly above 0.7 against some canonical brand
resolves to a context with similarity_score set. -/
theorem claim_c2_amended (store : BrandStore) (name : String) :
    (∀ ctx ∈ queryFuzzyBrand store name,
      ∃ s, ctx.similarity_score = some s ∧ 7/10 < s) ∧
    (queryFuzzyBrand store name).length ≤ 3 ∧
    ((queryFuzzyBrand store name).map (fun c => c.similarity_score) =
      ((sortByScoreDesc (fuzzyMatches store name)).take 3).map (fun m => some m.2)) ∧
    (∀ m ∈ fuzzyMatches store name, 7/10 < m.2 ∧ ∃ b ∈ store, b.name = m.1 ∧
      m.2 = calculateSimilarity (strToLower name) (strToLower b.name)) ∧
    (sortByScoreDesc (fuzzyMatches store name)).Sorted (fun a b => b.2 ≤ a.2) ∧
    (sortByScoreDesc (fuzzyMatches store name)).Perm (fuzzyMatches store name) ∧
    (∀ k : ℚ, (sortByScoreDesc (fuzzyMatches store name)).filter (fun q => q.2 = k) =
      (fuzzyMatches store name).filter (fun q => q.2 = k)) ∧
    (∀ b ∈ store, queryExactBrand store name = none →
      7/10 < calculateSimilarity (strToLower name) (strToLower b.name) →
      (getBrandContext store name).similarity_score ≠ none) :=
  ⟨queryFuzzyBrand_mem_score store name, queryFuzzyBrand_length_le store name,
    queryFuzzyBrand_scores store name, fuzzyMatches_mem store name,
    sortByScoreDesc_sorted _, sortByScoreDesc_perm _, sortByScoreDesc_stable _,
    fun b hb hexact hsim => getBrandContext_fuzzy_simscore_set store name hexact b hb hsim⟩

/-- A one-brand store for the strict-threshold witness: "nikee" vs the
stored brand "nike" has similarity 4/5 > 0.7. -/
def nikeStore : BrandStore := [⟨"nike", [], []⟩]

/-- C2 witness: the name "nikee" (similarity 4/5 with the stored brand
"nike", no exact match) resolves with similarity_score set. -/
theorem claim_c2_amended_witness :
    (getBrandContext nikeStore "nikee").similarity_score ≠ none :=
  (claim_c2_amended nikeStore "nikee").2.2.2.2.2.2.2 ⟨"nike", [], []⟩
    (List.mem_cons_self _ _) (by decide)
    (by
      have hd : editDistance "nikee".data "nike".data = 1 := by decide
      have hl1 : "nikee".length = 5 := by decide
      have hl2 : "nike".length = 4 := by decide
      have hlow1 : strToLower "nikee" = "nikee" := rfl
      have hlow2 : strToLower "nike" = "nike" := rfl
      rw [hlow1, hlow2, calculateSimilarity_eq_formula _ _ (by decide) (by decide),
        hd, hl1, hl2]
      norm_num)

/-- A listing with no images, for the score-scale counterexample. -/
def bareListing : Listing := ⟨"cheap shoes", "very cheap", []⟩

/-- C3 counterexample: the package detector's `calculate_score` is
`min(100, len(indicators)*10*confidence)`, a 0-100 scale: one indicator
at confidence 1 already yields score 10, outside [0,1].  (The package's
own tests assert scores against thresholds 30 and 60.) -/
theorem claim_c3_counterexample :
    (analyzeListing constLLM refGraphA bareListing).score = 10 ∧
    ¬ ((analyzeListing constLLM refGraphA bareListing).score ≤ 1) := by
  have hscore : (analyzeListing constLLM refGraphA bareListing).score = 10 := by
    simp only [analyzeListing, analyzeListingMultimodal, multimodalPrompt, constLLM,
      bareListing, calculateScore]
    norm_num
  exact ⟨hscore, by rw [hscore]; norm_num⟩

/-- C3 (amended): the legacy analyzer's counterfeit score lies in [0,1]
whenever the inference confidences do; the package detector's score
(single-listing, and per-listing with prefetched brand data) equals
`min(100, 10*len(indicators)*confidence)` and lies in [0,100] — not in
[0,1]. -/
theorem claim_c3_amended :
    (∀ (store : BrandStore) (candidates : List (String × ℚ))
      (indicatorsFor : String → BrandContext → List Indicator),
      (∀ c ∈ candidates, 0 ≤ c.2 ∧ c.2 ≤ 1) →
      (∀ name ctx, ∀ i ∈ indicatorsFor name ctx, 0 ≤ i.confidence ∧ i.confidence ≤ 1) →
      0 ≤ (analyzeCatalogItem store candidates indicatorsFor).counterfeit_score ∧
        (analyzeCatalogItem store candidates indicatorsFor).counterfeit_score ≤ 1) ∧
    (∀ (llm : Prompt → MMResponse) (graph : String → BrandData) (listing : Listing),
      (∀ p, 0 ≤ (llm p).confidence) →
      0 ≤ (analyzeListing llm graph listing).score ∧
        (analyzeListing llm graph listing).score ≤ 100) ∧
    (∀ (llm : Prompt → MMResponse) (listing : Listing) (detected_brand : String)
      (brand_data : BrandData), (∀ p, 0 ≤ (llm p).confidence) →
      0 ≤ (analyzeWithContext llm listing detected_brand brand_data).score ∧
        (analyzeWithContext llm listing detected_brand brand_data).score ≤ 100) ∧
    (∀ (indicators : List String) (confidence : ℚ), 0 ≤ confidence →
      0 ≤ calculateScore indicators confidence ∧
        calculateScore indicators confidence ≤ 100) :=
  ⟨analyzeCatalogItem_score_bounds, analyzeListing_score_bounds,
    analyzeWithContext_score_bounds, calculateScore_bounds⟩

/-- C3 witness: the legacy bound applied to a concrete store, candidate
list and indicator oracle, and the package bound applied to the
constant oracle. -/
theorem claim_c3_amended_witness :
    (0 ≤ (analyzeCatalogItem variantStore [("nike", 9/10)]
        (fun _ _ => [⟨"price_indicator", 1/2⟩])).counterfeit_score ∧
      (analyzeCatalogItem variantStore [("nike", 9/10)]
        (fun _ _ => [⟨"price_indicator", 1/2⟩])).counterfeit_score ≤ 1) ∧
    (0 ≤ (analyzeListing constLLM refGraphA bareListing).score ∧
      (analyzeListing constLLM refGraphA bareListing).score ≤ 100) :=
  ⟨claim_c3_amended.1 variantStore [("nike", 9/10)]
      (fun _ _ => [⟨"price_indicator", 1/2⟩])
      (by intro c hc; simp only [List.mem_cons, List.not_mem_nil, or_false] at hc
          rw [hc]; norm_num)
      (by intro name ctx i hi
          simp only [List.mem_cons, List.not_mem_nil, or_false] at hi
          rw [hi]; norm_num),
    claim_c3_amended.2.1 constLLM refGraphA bareListing
      (fun p => by norm_num [constLLM])⟩

/-- A brand-detection oracle, a failing and a succeeding per-listing
analysis, and two listings, for the batch-error counterexample. -/
def constDetect : Listing → String := fun _ => "b"

def failingAnalyzeCtx : Listing → String → BrandData → Except String String :=
  fun l _ _ => if l.title = "L1" then .error "boom" else .ok l.title

def okAnalyzeCtx : Listing → String → BrandData → Except String String :=
  fun l _ _ => .ok l.title

def listingL1 : Listing := ⟨"L1", "", []⟩

def listingL2 : Listing := ⟨"L2", "", []⟩

/-- C4 counterexample: in the optimized pipeline a single listing's
failure aborts the whole batch call — with two listings of which the
first fails, `process_large_dataset` surfaces the exception instead of
returning two results with an error record. -/
theorem claim_c4_counterexample :
    processLargeDataset 50 constDetect refGraphA failingAnalyzeCtx
      [listingL1, listingL2] = Except.error "boom" := rfl

/-- C4 (amended): the sequential batch analysis always returns exactly
one entry per input item, each either the item's analysis or an error
record carrying the original item and a message, with processing
continuing past failures; the optimized large-dataset pipeline returns
exactly N results for every chunk size of at least 1 — but only when
every listing's analysis succeeds, since a single listing's exception
propagates up and aborts the run. -/
theorem claim_c4_amended :
    (∀ (α ρ : Type) (analyzeOne : α → Except String ρ) (items : List α),
      (analyzeCatalogItems analyzeOne items).length = items.length) ∧
    (∀ (α ρ : Type) (analyzeOne : α → Except String ρ) (items : List α) (i : Nat),
      (analyzeCatalogItems analyzeOne items)[i]? =
        (items[i]?).map (fun item =>
          match analyzeOne item with
          | .ok r => BatchEntry.ok r
          | .error e => BatchEntry.err item e)) ∧
    (∀ (ρ : Type) (batch_size : Nat), 1 ≤ batch_size →
      ∀ (detect : Listing → String) (graph : String → BrandData)
        (analyzeCtx : Listing → String → BrandData → Except String ρ)
        (listings : List Listing) (rs : List ρ),
        processLargeDataset batch_size detect graph analyzeCtx listings = Except.ok rs →
        rs.length = listings.length) :=
  ⟨fun _ _ => analyzeCatalogItems_length, fun _ _ => analyzeCatalogItems_getElem,
    fun _ batch_size hbs detect graph analyzeCtx listings rs h =>
      processLargeDataset_ok_length batch_size hbs detect graph analyzeCtx listings rs h⟩

/-- C4 witness: the optimized pipeline applied to two listings whose
analyses both succeed returns exactly two results. -/
theorem claim_c4_amended_witness :
    (["L1", "L2"] : List String).length = ([listingL1, listingL2] : List Listing).length :=
  claim_c4_amended.2.2 String 50 (by norm_num) constDetect refGraphA okAnalyzeCtx
    [listingL1, listingL2] ["L1", "L2"] rfl
